import Mathlib

/-!
Verification development for `src/models/deep_conv.py` (DeepConvGAN generator and
discriminator of the StudioGAN model family).

The Python module composes externally supplied primitives (convolutions,
batch norms, linear layers, embeddings, self-attention) into a configuration-driven
forward graph.  The embedding below models:

* the head-construction logic of `Discriminator.__init__` (lines 149-183),
* the post-pooling part of `Discriminator.forward` (lines 199-255), parameterised
  over the scalar ring and over the `F.normalize` primitive,
* the stage-construction loop of `Generator.__init__` (lines 55-68),
* the value-level dataflow of `Generator.forward` (lines 75-88) with the externally
  supplied stage primitives kept abstract, and
* the shape algebra of the fixed channel/resolution schedule of both networks.

Configuration strings (`d_cond_mtd`, `aux_cls_type`) are kept as `String`, exactly
as the source branches on them; an unsupported string therefore falls through the
same branches as in the code.  A raised Python exception is modelled as an
`Except.error` carrying the exception name.
-/

/-- Sum of products of two width-matched operands.  `zipWith` itself truncates,
so the tensor engine's width check is NOT part of this definition: wherever the
source applies a weight tensor whose in-features can disagree with the input
width — the conditioning heads, built with `in_features = out_dims[-1] = 256`
(lines 163-177) yet applied to the 512-wide pooled `h` — the checked wrappers
`linApply` / `linApplyB` / `mulSumPD` below model the engine's error. -/
def dot {R : Type} [CommRing R] (v w : List R) : R :=
  (List.zipWith (fun a b => a * b) v w).sum

/-- Matrix-vector product: one output entry per weight row.  This is a bias-free
`nn.Linear` application (used for the `bias=False` heads of the source). -/
def matVec {R : Type} [CommRing R] (W : List (List R)) (v : List R) : List R :=
  W.map (fun row => dot row v)

/-- Application of an `nn.Linear` layer with bias: `y = W x + b`, on
width-matched operands.  The adversarial head `linear1` is constructed with
`in_features = 512` (lines 149-155), matching the pooled width, so its
application at line 200 uses this unchecked form. -/
def linearB {R : Type} [CommRing R] (W : List (List R)) (b : List R) (v : List R) : List R :=
  List.zipWith (fun a c => a + c) (matVec W v) b

/-- Application of a bias-free `nn.Linear` with the tensor engine's in-features
check: PyTorch raises a shape error when the weight's in-features differ from
the input width.  Used for the conditioning heads, whose in-features is
`out_dims[-1] = 256` (lines 163, 175) while the incoming `h` is 512-wide. -/
def linApply {R : Type} [CommRing R] (W : List (List R)) (v : List R) :
    Option (List R) :=
  if W.all (fun row => row.length == v.length) then some (matVec W v) else none

/-- Application of an `nn.Linear` with bias and the engine's in-features check
(the bias length always equals the row count by construction, so only the
in-features are checked, as in PyTorch). -/
def linApplyB {R : Type} [CommRing R] (W : List (List R)) (b : List R) (v : List R) :
    Option (List R) :=
  if W.all (fun row => row.length == v.length) then some (linearB W b v) else none

/-- Embeds `torch.sum(torch.mul(embedding(label), h), 1)` (line 217) with the
engine's width check on the elementwise product: the constructed embedding
width (`out_dims[-1] = 256`, line 165) and the 512-wide pooled `h` are both
non-singleton, so a mismatch raises rather than broadcasts. -/
def mulSumPD {R : Type} [CommRing R] (proxyRows hIn : List (List R)) :
    Option (List R) :=
  (List.zipWith (fun p v => if p.length = v.length then some (dot p v) else none)
    proxyRows hIn).mapM id

/-- Result of `torch.squeeze` on a rank-2 tensor: either a 0-dim scalar, a vector,
or an untouched matrix, depending on which dimensions are 1. -/
inductive TVal (R : Type) where
  | rank0 (x : R)
  | rank1 (v : List R)
  | rank2 (m : List (List R))
deriving DecidableEq

/-- Shape of a squeezed value, as the list of its dimensions. -/
def TVal.shape {R : Type} : TVal R → List Nat
  | .rank0 _ => []
  | .rank1 v => [v.length]
  | .rank2 m => [m.length, (m.head?.map List.length).getD 0]

/-- Embeds `torch.squeeze` applied to a (B, k) tensor (line 200 of the source):
every dimension equal to 1 is removed.  Rows are rectangular at all use sites,
so the first row's length is the second dimension. -/
def squeezeVal {R : Type} (m : List (List R)) : TVal R :=
  match m with
  | [[x]] => .rank0 x
  | [r] => .rank1 r
  | _ =>
    if m.head?.map List.length = some 1 then .rank1 (m.filterMap List.head?)
    else .rank2 m

/-- Embeds the `PD` update `adv_output + torch.sum(torch.mul(...), 1)` (line 217):
a broadcast addition of a shape-(B,) tensor onto the squeezed adversarial output.
The `rank2` case is unreachable under `PD`, where the adversarial head has a
single output feature. -/
def addVec {R : Type} [CommRing R] : TVal R → List R → TVal R
  | .rank0 x, s => .rank1 (s.map (fun y => x + y))
  | .rank1 v, s => .rank1 (List.zipWith (fun a c => a + c) v s)
  | .rank2 m, _ => .rank2 m

/-- Embeds the `MD` advanced indexing `adv_output[idx, label]` with
`idx = range(label.size(0))` (lines 225-226).  PyTorch raises unless the indexed
tensor still has two dimensions and every index is in range; failure is `none`. -/
def mdGather {R : Type} (t : TVal R) (labels : List Nat) : Option (TVal R) :=
  match t with
  | .rank2 m =>
    ((List.range labels.length).mapM (fun i =>
      (m.get? i).bind (fun row => (labels.get? i).bind (fun l => row.get? l)))).map .rank1
  | _ => none

/-- Embeds an `nn.Embedding` lookup on a batch of labels; PyTorch raises on an
out-of-range index, modelled by `none`. -/
def embLookup {R : Type} (table : List (List R)) (labels : List Nat) :
    Option (List (List R)) :=
  labels.mapM (fun l => table.get? l)

/-- Weight tensors a `Discriminator` instance can own.  The configuration decides
which of them the source actually constructs; unused fields are simply never
read by the forward embedding, mirroring attributes that are never accessed. -/
structure DiscParams (R : Type) where
  linear1W : List (List R)
  linear1b : List R
  linear2W : List (List R)
  linear2b : List R
  embeddingT : List (List R)
  linearMiW : List (List R)
  linearMib : List R
  embeddingMiT : List (List R)
deriving DecidableEq

/-- The dictionary returned by `Discriminator.forward` (lines 245-255). -/
structure DiscOut (R : Type) where
  h : List (List R)
  adv_output : TVal R
  embed : Option (List (List R))
  proxy : Option (List (List R))
  cls_output : Option (List (List R))
  label : List Nat
  mi_embed : Option (List (List R))
  mi_proxy : Option (List (List R))
  mi_cls_output : Option (List (List R))
deriving DecidableEq

/-- Result of the class-conditioning branch (lines 209-230): the current value of
the local `h`, the current adversarial output, and the populated optional fields. -/
structure CondRes (R : Type) where
  hCur : List (List R)
  adv : TVal R
  embed : Option (List (List R))
  proxy : Option (List (List R))
  cls_output : Option (List (List R))
deriving DecidableEq

/-- Result of the TAC branch (lines 232-244). -/
structure TacRes (R : Type) where
  mi_embed : Option (List (List R))
  mi_proxy : Option (List (List R))
  mi_cls_output : Option (List (List R))
deriving DecidableEq

/-- Embeds the ADC label recoding (lines 202-207): labels become `2*l+1` for fake
and `2*l` for real, only when `aux_cls_type == "ADC"`. -/
def adcRewrite (aux_cls_type : String) (adc_fake : Bool) (label : List Nat) : List Nat :=
  if aux_cls_type = "ADC" then
    if adc_fake then label.map (fun l => l * 2 + 1) else label.map (fun l => l * 2)
  else label

/-- Embeds the class-conditioning dispatch of `Discriminator.forward`
(lines 209-230).  In the `AC` branch the Python loop
`for W in self.linear2.parameters(): W = F.normalize(W, dim=1)` rebinds only the
loop variable, so the stored weight rows are used raw in the product below; only
the local `h` is reassigned to its normalized value.  `normF` is the
`F.normalize(-, dim=1)` primitive.  Head applications carry the engine's
in-features check (`linApply` / `linApplyB` / `mulSumPD`), raised as
`RuntimeError`; in the `2C`/`D2DCE` branch `embed` is computed at line 219
before the label lookup of line 220, so a width error precedes an index error
there, while under `PD` the lookup (line 217, inner call) comes first. -/
def condBranch {R : Type} [CommRing R] (normF : List R → List R) (d_cond_mtd : String)
    (normalize_d_embed : Bool) (P : DiscParams R) (hIn : List (List R))
    (label1 : List Nat) (adv0 : TVal R) : Except String (CondRes R) :=
  if d_cond_mtd = "AC" then
    let hC := if normalize_d_embed then hIn.map normF else hIn
    match hC.mapM (fun v => linApply P.linear2W v) with
    | none => .error "RuntimeError"
    | some cls => .ok ⟨hC, adv0, none, none, some cls⟩
  else if d_cond_mtd = "PD" then
    match embLookup P.embeddingT label1 with
    | none => .error "IndexError"
    | some proxyRows =>
      match mulSumPD proxyRows hIn with
      | none => .error "RuntimeError"
      | some s => .ok ⟨hIn, addVec adv0 s, none, none, none⟩
  else if d_cond_mtd = "2C" ∨ d_cond_mtd = "D2DCE" then
    match hIn.mapM (fun v => linApplyB P.linear2W P.linear2b v) with
    | none => .error "RuntimeError"
    | some embedRows =>
      match embLookup P.embeddingT label1 with
      | none => .error "IndexError"
      | some proxyRows =>
        .ok ⟨hIn, adv0,
             some (if normalize_d_embed then embedRows.map normF else embedRows),
             some (if normalize_d_embed then proxyRows.map normF else proxyRows), none⟩
  else if d_cond_mtd = "MD" then
    match mdGather adv0 label1 with
    | none => .error "IndexError"
    | some advG => .ok ⟨hIn, advG, none, none, none⟩
  else if d_cond_mtd = "W/O" ∨ d_cond_mtd = "MH" then
    .ok ⟨hIn, adv0, none, none, none⟩
  else .error "NotImplementedError"

/-- Embeds the TAC twin-head computation of `Discriminator.forward`
(lines 232-244).  As in `condBranch`, the normalization loop over
`linear_mi.parameters()` rebinds the loop variable only, and the twin-head
applications (lines 238, 240; `in_features = out_dims[-1]` per lines 175, 177)
carry the engine's width check.  The forward code has no `else` clause for other
conditioning modes, so they silently populate nothing. -/
def tacBranch {R : Type} [CommRing R] (normF : List R → List R)
    (d_cond_mtd aux_cls_type : String) (normalize_d_embed : Bool) (P : DiscParams R)
    (hCur : List (List R)) (label1 : List Nat) : Except String (TacRes R) :=
  if aux_cls_type = "TAC" then
    if d_cond_mtd = "AC" then
      match hCur.mapM (fun v => linApply P.linearMiW v) with
      | none => .error "RuntimeError"
      | some miCls => .ok ⟨none, none, some miCls⟩
    else if d_cond_mtd = "2C" ∨ d_cond_mtd = "D2DCE" then
      match hCur.mapM (fun v => linApplyB P.linearMiW P.linearMib v) with
      | none => .error "RuntimeError"
      | some miEmbedRows =>
        match embLookup P.embeddingMiT label1 with
        | none => .error "IndexError"
        | some miProxyRows =>
          .ok ⟨some (if normalize_d_embed then miEmbedRows.map normF else miEmbedRows),
               some (if normalize_d_embed then miProxyRows.map normF else miProxyRows),
               none⟩
    else .ok ⟨none, none, none⟩
  else .ok ⟨none, none, none⟩

/-- Embeds `Discriminator.forward` from the pooled feature onward
(lines 199-255): `hIn` is the batch of 512-length pooled vectors produced by the
sum over the spatial dimensions at line 197.  `normF` stands for
`F.normalize(-, dim=1)`.  Raised exceptions are `Except.error` values. -/
def discHeads {R : Type} [CommRing R] (normF : List R → List R)
    (d_cond_mtd aux_cls_type : String) (normalize_d_embed : Bool) (P : DiscParams R)
    (hIn : List (List R)) (label : List Nat) (adc_fake : Bool) :
    Except String (DiscOut R) :=
  let adv0 := squeezeVal (hIn.map (fun v => linearB P.linear1W P.linear1b v))
  let label1 := adcRewrite aux_cls_type adc_fake label
  match condBranch normF d_cond_mtd normalize_d_embed P hIn label1 adv0 with
  | .error e => .error e
  | .ok c =>
    match tacBranch normF d_cond_mtd aux_cls_type normalize_d_embed P c.hCur label1 with
    | .error e => .error e
    | .ok t =>
      .ok { h := c.hCur, adv_output := c.adv, embed := c.embed, proxy := c.proxy,
            cls_output := c.cls_output, label := label1, mi_embed := t.mi_embed,
            mi_proxy := t.mi_proxy, mi_cls_output := t.mi_cls_output }

/-- Head tensors recorded by the construction model: the adversarial head's
output width, and for each optional layer its presence with
(in-features, out-features) and, for linear layers, the bias flag. -/
structure DiscArch where
  linear1_out : Nat
  linear2 : Option (Nat × Nat × Bool)
  embedding : Option (Nat × Nat)
  linear_mi : Option (Nat × Nat × Bool)
  embedding_mi : Option (Nat × Nat)
deriving DecidableEq

/-- Embeds the head construction of `Discriminator.__init__` (lines 149-183).
`linear1` is sized from the incoming `num_classes` (lines 149-155); only then is
`num_classes` doubled for `ADC` (lines 157-159) before the conditioning heads
(lines 161-170, falling through silently on an unknown mode) and the TAC heads
(lines 172-180, raising `NotImplementedError` on other modes) are built.
`256` is `self.out_dims[-1]`. -/
def discInit (d_cond_mtd aux_cls_type : String) (num_classes d_embed_dim : Nat) :
    Except String DiscArch :=
  let linear1_out :=
    if d_cond_mtd = "MH" then 1 + num_classes
    else if d_cond_mtd = "MD" then num_classes
    else 1
  let nc := if aux_cls_type = "ADC" then num_classes * 2 else num_classes
  let l2e : Option (Nat × Nat × Bool) × Option (Nat × Nat) :=
    if d_cond_mtd = "AC" then (some (256, nc, false), none)
    else if d_cond_mtd = "PD" then (none, some (nc, 256))
    else if d_cond_mtd = "2C" ∨ d_cond_mtd = "D2DCE" then
      (some (256, d_embed_dim, true), some (nc, d_embed_dim))
    else (none, none)
  if aux_cls_type = "TAC" then
    if d_cond_mtd = "AC" then
      .ok ⟨linear1_out, l2e.1, l2e.2, some (256, nc, false), none⟩
    else if d_cond_mtd = "2C" ∨ d_cond_mtd = "D2DCE" then
      .ok ⟨linear1_out, l2e.1, l2e.2, some (256, d_embed_dim, true),
           some (nc, d_embed_dim)⟩
    else .error "NotImplementedError"
  else .ok ⟨linear1_out, l2e.1, l2e.2, none, none⟩

/-- Whether `Discriminator.__init__` raises for the given configuration. -/
def initFails (d_cond_mtd aux_cls_type : String) (num_classes d_embed_dim : Nat) : Bool :=
  match discInit d_cond_mtd aux_cls_type num_classes d_embed_dim with
  | .error _ => true
  | .ok _ => false

/-- The `F.normalize(-, dim=1)` primitive at the real-number level of
abstraction: division of a vector by its L2 norm (the PyTorch `eps=1e-12`
guard against a zero denominator is below this abstraction). -/
noncomputable def l2norm (v : List Real) : Real :=
  Real.sqrt ((v.map (fun x => x * x)).sum)

/-- L2 normalization of a vector along its feature axis. -/
noncomputable def l2normalize (v : List Real) : List Real :=
  v.map (fun x => x / l2norm v)

/-- Modelled from the spec: the `AC` class logits as section 4.5 and the
testable-properties section describe them, with BOTH the class-head weight rows
and the pooled vector L2-normalized before the dot product.  The source's `AC`
branch is compared against this definition. -/
noncomputable def acClsSpec (W : List (List Real)) (h : List Real) : List Real :=
  matVec (W.map l2normalize) (l2normalize h)

/-- Output spatial size of a 2d convolution along one dimension. -/
def convOutDim (hIn k s p : Nat) : Nat := (hIn + 2 * p - k) / s + 1

/-- Output spatial size of a 2d transposed convolution along one dimension. -/
def deconvOutDim (hIn k s p : Nat) : Nat := (hIn - 1) * s - 2 * p + k

/-- Generator stage input channel schedule (`self.in_dims`, line 46). -/
def Generator.in_dims : List Nat := [512, 256, 128]

/-- Generator stage output channel schedule (`self.out_dims`, line 47). -/
def Generator.out_dims : List Nat := [256, 128, 64]

/-- Discriminator stage input channel schedule (`self.in_dims`, line 122). -/
def Discriminator.in_dims : List Nat := [3, 64, 128]

/-- Discriminator stage output channel schedule (`self.out_dims`, line 123). -/
def Discriminator.out_dims : List Nat := [64, 128, 256]

/-- A constructed generator stage: either a `GenBlock` with its channel pair or a
`SelfAttention` module on the given channel count. -/
inductive GArch where
  | genBlock (cin cout : Nat)
  | selfAttn (ch : Nat)
deriving DecidableEq

/-- Embeds the stage-construction loop of `Generator.__init__` (lines 55-68):
one `GenBlock` per schedule entry, followed by a `SelfAttention` module whenever
`index + 1` is a configured attention location and `apply_attn` is set.  The
nested singleton `ModuleList`s of the source are flattened into the order in
which `Generator.forward` visits the modules. -/
def genMakeStages (apply_attn : Bool) (attn_g_loc : List Nat) : List GArch :=
  (List.range Generator.in_dims.length).foldl (fun acc index =>
    acc ++ [GArch.genBlock (Generator.in_dims.getD index 0) (Generator.out_dims.getD index 0)]
      ++ (if (index + 1) ∈ attn_g_loc ∧ apply_attn then
            [GArch.selfAttn (Generator.out_dims.getD index 0)]
          else [])) []

/-- A generator stage as run by `Generator.forward`: the `isinstance` dispatch of
lines 81-84 becomes a tagged variant.  A `block` consumes the label batch, a
`attn` stage ignores it.  Stage bodies are the externally supplied primitives,
kept abstract; values are the flattened tensor contents. -/
inductive GStage (R : Type) where
  | block (f : List R → List Nat → List R)
  | attn (f : List R → List R)

/-- Embeds the stage loop of `Generator.forward` (lines 79-84). -/
def runStages {R : Type} : List (GStage R) → List R → List Nat → List R
  | [], act, _ => act
  | .block f :: rest, act, label => runStages rest (f act label) label
  | .attn f :: rest, act, label => runStages rest (f act) label

/-- Embeds the value-level dataflow of `Generator.forward` (lines 75-88):
`linear0`, the reshaping `view` (value-preserving on the flattened contents),
the stage loop, `conv4`, and the final elementwise `tanh`.  The autocast context
of line 76 is engaged iff `mixed_precision ∧ ¬eval`; it is a precision-only
scoping with no value-level effect at this abstraction, so both context choices
are the identity on values. -/
def genForward {R : Type} (tanhF : R → R) (linear0 : List R → List R)
    (stages : List (GStage R)) (conv4 : List R → List R) (z : List R)
    (label : List Nat) (mixed_precision eval : Bool) : List R :=
  let amp := fun (v : List R) => v
  let dummy := fun (v : List R) => v
  let ctx := if mixed_precision ∧ eval = false then amp else dummy
  ctx ((conv4 (runStages stages (linear0 z) label)).map tanhF)

/-- Shape of one `GenBlock` application (deconvolution kernel 4, stride 2,
padding 1, line 19): the spatial size doubles and the channel count becomes the
stage's output width. -/
def genBlockShape (cout : Nat) : List Nat → List Nat
  | [b, _, h, w] => [b, cout, deconvOutDim h 4 2 1, deconvOutDim w 4 2 1]
  | s => s

/-- Shape pipeline of `Generator.forward`: the latent batch is projected and
viewed as (B, 512, 4, 4) (lines 77-78), each stage doubles the spatial size per
the schedule (self-attention preserves shape), and `conv4` (kernel 3, stride 1,
padding 1, line 70) maps to 3 channels at unchanged spatial size; `tanh`
preserves shape. -/
def genShape (B : Nat) : List Nat :=
  let s0 : List Nat := [B, 512, 4, 4]
  let s1 := Generator.out_dims.foldl (fun s c => genBlockShape c s) s0
  match s1 with
  | [b, _, h, w] => [b, 3, convOutDim h 3 1 1, convOutDim w 3 1 1]
  | s => s

/-- Shape of one `DiscBlock` application (lines 96-97): a kernel-3 stride-1
padding-1 convolution (shape preserving) followed by a kernel-4 stride-2
padding-1 convolution (spatial halving), with the stage's output channels. -/
def discBlockShape (cout : Nat) : List Nat → List Nat
  | [b, _, h, w] =>
    [b, cout, convOutDim (convOutDim h 3 1 1) 4 2 1, convOutDim (convOutDim w 3 1 1) 4 2 1]
  | s => s

/-- Shape of the spatial sum-pooling `torch.sum(h, dim=[2, 3])` (line 197). -/
def discPoolShape : List Nat → List Nat
  | [b, c, _, _] => [b, c]
  | s => s

/-- Shape pipeline of the discriminator backbone (lines 189-197): the stage
blocks per the channel schedule (self-attention preserves shape), `conv1` to 512
channels (kernel 3, stride 1, padding 1, line 144), and the spatial sum-pool. -/
def discStackShape (B s : Nat) : List Nat :=
  let sh := Discriminator.out_dims.foldl (fun sh c => discBlockShape c sh) [B, 3, s, s]
  discPoolShape (match sh with
    | [b, _, h, w] => [b, 512, convOutDim h 3 1 1, convOutDim w 3 1 1]
    | s' => s')

/-- Lookup with a default agrees with the partial lookup below the length. -/
lemma get?_eq_some_getD {α : Type} (l : List α) (n : Nat) (d : α) (h : n < l.length) :
    l.get? n = some (l.getD n d) := by
  induction l generalizing n with
  | nil => cases h
  | cons a t ih =>
    cases n with
    | zero => rfl
    | succ k => exact ih k (Nat.lt_of_succ_lt_succ h)

/-- Lookup with a default commutes with `map` below the length. -/
lemma getD_map {α β : Type} (f : α → β) (l : List α) (i : Nat) (d : α) (hd : β)
    (h : i < l.length) : (l.map f).getD i hd = f (l.getD i d) := by
  induction l generalizing i with
  | nil => cases h
  | cons a t ih =>
    cases i with
    | zero => rfl
    | succ k => exact ih k (Nat.lt_of_succ_lt_succ h)

/-- A monadic map over `Option` succeeds with the pointwise values when every
point succeeds. -/
lemma mapM_eq_some_map {α β : Type} (f : α → Option β) (g : α → β) :
    ∀ l : List α, (∀ a ∈ l, f a = some (g a)) → l.mapM f = some (l.map g) := by
  intro l
  induction l with
  | nil => intro _; rfl
  | cons a t ih =>
    intro h
    simp only [List.mapM_cons, h a (List.mem_cons_self a t),
      ih (fun x hx => h x (List.mem_cons_of_mem a hx)), List.map_cons]
    rfl

/-- An embedding lookup succeeds exactly on in-range label batches, producing one
row per label. -/
lemma embLookup_ok {R : Type} (table : List (List R)) (labels : List Nat)
    (h : ∀ l ∈ labels, l < table.length) :
    embLookup table labels = some (labels.map (fun l => table.getD l [])) :=
  mapM_eq_some_map _ _ labels (fun a ha => get?_eq_some_getD table a [] (h a ha))

/-- Length of a linear layer application. -/
lemma linearB_length {R : Type} [CommRing R] (W : List (List R)) (b v : List R) :
    (linearB W b v).length = min W.length b.length := by
  simp [linearB, matVec]

/-- Heads of a batch of singleton rows: one entry per row. -/
lemma filterMap_head_length {R : Type} :
    ∀ m : List (List R), (∀ r ∈ m, r.length = 1) →
      (m.filterMap List.head?).length = m.length := by
  intro m
  induction m with
  | nil => simp
  | cons a t ih =>
    intro h
    have ha := h a (List.mem_cons_self a t)
    obtain ⟨x, hx⟩ : ∃ x, a = [x] := by
      cases a with
      | nil => simp at ha
      | cons y ys =>
        cases ys with
        | nil => exact ⟨y, rfl⟩
        | cons z zs => simp at ha
    subst hx
    have ih' := ih (fun r hr => h r (List.mem_cons_of_mem _ hr))
    simp [List.filterMap_cons, ih']

/-- `torch.squeeze` on a batch of at least two singleton rows drops the feature
dimension and keeps one value per row. -/
lemma squeezeVal_singleton_rows {R : Type} (a b : List R) (t : List (List R))
    (ha : a.length = 1) :
    squeezeVal (a :: b :: t) = .rank1 ((a :: b :: t).filterMap List.head?) := by
  simp [squeezeVal, ha]

/-- `torch.squeeze` on a matrix with at least two rows of width at least two is
the identity. -/
lemma squeezeVal_wide_rows {R : Type} (a b : List R) (t : List (List R))
    (ha : a.length ≠ 1) :
    squeezeVal (a :: b :: t) = .rank2 (a :: b :: t) := by
  simp [squeezeVal, ha]

/-- The `MD` advanced indexing succeeds on an intact rank-2 tensor with in-range
indices, selecting entry `(i, labels i)` for every sample `i`. -/
lemma mdGather_ok {R : Type} [CommRing R] (m : List (List R)) (labels : List Nat)
    (hlen : labels.length ≤ m.length)
    (hbound : ∀ i, i < labels.length → labels.getD i 0 < (m.getD i []).length) :
    mdGather (.rank2 m) labels
      = some (.rank1 ((List.range labels.length).map (fun i =>
          (m.getD i []).getD (labels.getD i 0) 0))) := by
  have hpt : ∀ i ∈ List.range labels.length,
      (m.get? i).bind (fun row => (labels.get? i).bind (fun l => row.get? l))
        = some ((m.getD i []).getD (labels.getD i 0) 0) := by
    intro i hi
    rw [List.mem_range] at hi
    rw [get?_eq_some_getD m i [] (Nat.lt_of_lt_of_le hi hlen),
        get?_eq_some_getD labels i 0 hi]
    exact get?_eq_some_getD _ _ 0 (hbound i hi)
  have h := mapM_eq_some_map _ _ (List.range labels.length) hpt
  simp only [mdGather]
  rw [h]
  rfl

/-- Rewritten label batches keep their length. -/
lemma adcRewrite_length (aux : String) (fake : Bool) (labels : List Nat) :
    (adcRewrite aux fake labels).length = labels.length := by
  unfold adcRewrite
  split_ifs <;> simp

/-- C1.  The claim quantifies over every configuration whose conditioning method
is outside the supported set, asserting construction fails there.  It is false:
with `aux_cls_type` not `TAC`, an unknown `d_cond_mtd` (here `"XYZ"`) reaches the
bare `pass` of lines 169-170 and construction succeeds; the error surfaces only
in `forward` (line 230), contradicting the claim's second half as well. -/
theorem c1_counterexample :
    initFails "XYZ" "None" 3 4 = false
    ∧ discHeads (R := Int) id "XYZ" "None" false ⟨[], [], [], [], [], [], [], []⟩
        [[1]] [] false = .error "NotImplementedError" :=
  ⟨rfl, rfl⟩

/-- C1 (amended).  Construction fails exactly when `aux_cls_type = TAC` and the
conditioning method is outside `{AC, 2C, D2DCE}` (lines 172-180); for any
conditioning method outside the supported seven, construction nevertheless
succeeds whenever the auxiliary type is not `TAC`, and the `NotImplementedError`
is raised by `forward` instead (line 230). -/
theorem c1_amended : ∀ (mtd aux : String) (nc d : Nat),
    (initFails mtd aux nc d = true ↔
      (aux = "TAC" ∧ ¬(mtd = "AC" ∨ mtd = "2C" ∨ mtd = "D2DCE")))
    ∧ (¬(mtd = "W/O" ∨ mtd = "MH" ∨ mtd = "MD" ∨ mtd = "AC" ∨ mtd = "PD" ∨
          mtd = "2C" ∨ mtd = "D2DCE") →
        ∀ {R : Type} [inst : CommRing R] (normF : List R → List R) (normED : Bool)
          (P : DiscParams R) (hIn : List (List R)) (labels : List Nat) (fake : Bool),
          discHeads normF mtd aux normED P hIn labels fake
            = .error "NotImplementedError") := by
  intro mtd aux nc d
  constructor
  · unfold initFails discInit
    split_ifs with h1 h2 h3 <;> simp_all
  · intro hbad
    push_neg at hbad
    obtain ⟨h1, h2, h3, h4, h5, h6, h7⟩ := hbad
    intro R inst normF normED P hIn labels fake
    simp [discHeads, condBranch, h1, h2, h3, h4, h5, h6, h7]

/-- C1 witness: at the concrete unsupported mode `"QQ"` with auxiliary type
`"None"`, construction succeeds and forward raises. -/
theorem c1_amended_witness :
    (initFails "QQ" "None" 5 7 = true ↔
      ("None" = "TAC" ∧ ¬("QQ" = "AC" ∨ "QQ" = "2C" ∨ "QQ" = "D2DCE")))
    ∧ discHeads (R := Int) id "QQ" "None" false ⟨[[1]], [0], [], [], [], [], [], []⟩
        [[2]] [0] false = .error "NotImplementedError" :=
  ⟨(c1_amended "QQ" "None" 5 7).1,
   (c1_amended "QQ" "None" 5 7).2 (by decide) id false
     ⟨[[1]], [0], [], [], [], [], [], []⟩ [[2]] [0] false⟩

/-- C3.  The claim asserts the adversarial head is also sized with the doubled
class count under `ADC`.  It is false: `linear1` is constructed (lines 149-155)
before `num_classes` is doubled (lines 157-159), so under `MH` with 3 classes it
has `1 + 3 = 4` output features, not `1 + 6 = 7`. -/
theorem c3_counterexample :
    (discInit "MH" "ADC" 3 128).map (fun a => a.linear1_out) = .ok 4
    ∧ (4 : Nat) ≠ 1 + 3 * 2 :=
  ⟨rfl, by decide⟩

/-- C3 (amended).  Under `aux_cls_type = ADC` the conditioning heads
(`linear2` / `embedding` for `AC`, `PD`, `2C`, `D2DCE`) are sized with the
doubled class count, while the adversarial head keeps the undoubled count
(`1 + num_classes` under `MH`, `num_classes` under `MD`, otherwise 1), because
the doubling happens after `linear1` is built. -/
theorem c3_amended : ∀ (mtd : String) (nc d : Nat) (arch : DiscArch),
    discInit mtd "ADC" nc d = .ok arch →
    arch.linear1_out = (if mtd = "MH" then 1 + nc else if mtd = "MD" then nc else 1)
    ∧ (mtd = "AC" → arch.linear2 = some (256, nc * 2, false) ∧ arch.embedding = none)
    ∧ (mtd = "PD" → arch.linear2 = none ∧ arch.embedding = some (nc * 2, 256))
    ∧ ((mtd = "2C" ∨ mtd = "D2DCE") →
        arch.linear2 = some (256, d, true) ∧ arch.embedding = some (nc * 2, d)) := by
  intro mtd nc d arch h
  unfold discInit at h
  rw [if_neg (by decide : ¬("ADC" = "TAC"))] at h
  simp only [Except.ok.injEq] at h
  subst h
  refine ⟨rfl, ?_, ?_, ?_⟩ <;> intro hm <;> split_ifs <;> simp_all

/-- C3 witness: the amended sizing at the concrete configuration
`d_cond_mtd = AC`, `aux_cls_type = ADC`, 3 classes. -/
theorem c3_amended_witness :
    discInit "AC" "ADC" 3 5 = .ok ⟨1, some (256, 6, false), none, none, none⟩
    ∧ ((⟨1, some (256, 6, false), none, none, none⟩ : DiscArch).linear1_out
        = (if "AC" = "MH" then 1 + 3 else if "AC" = "MD" then 3 else 1)
      ∧ ("AC" = "AC" →
          (⟨1, some (256, 6, false), none, none, none⟩ : DiscArch).linear2
              = some (256, 3 * 2, false)
            ∧ (⟨1, some (256, 6, false), none, none, none⟩ : DiscArch).embedding = none)
      ∧ ("AC" = "PD" →
          (⟨1, some (256, 6, false), none, none, none⟩ : DiscArch).linear2 = none
            ∧ (⟨1, some (256, 6, false), none, none, none⟩ : DiscArch).embedding
                = some (3 * 2, 256))
      ∧ (("AC" = "2C" ∨ "AC" = "D2DCE") →
          (⟨1, some (256, 6, false), none, none, none⟩ : DiscArch).linear2
              = some (256, 5, true)
            ∧ (⟨1, some (256, 6, false), none, none, none⟩ : DiscArch).embedding
                = some (3 * 2, 5))) :=
  ⟨rfl, c3_amended "AC" 3 5 ⟨1, some (256, 6, false), none, none, none⟩ rfl⟩

/-- C4.  Under `ADC` the labels are recoded to `2l` (real) or `2l+1` (fake)
before any conditioning-head computation consumes them — the whole forward under
`ADC` coincides with the forward of a non-`ADC` auxiliary type applied to the
already-recoded label batch — and the recoded batch is the `label` field of the
returned bundle. -/
theorem c4_adc_label_recode : ∀ {R : Type} [inst : CommRing R]
    (normF : List R → List R) (mtd : String) (normED : Bool) (P : DiscParams R)
    (hIn : List (List R)) (labels : List Nat) (fake : Bool),
    discHeads normF mtd "ADC" normED P hIn labels fake
      = discHeads normF mtd "None" normED P hIn
          (if fake then labels.map (fun l => l * 2 + 1)
           else labels.map (fun l => l * 2)) fake
    ∧ (∀ out, discHeads normF mtd "ADC" normED P hIn labels fake = .ok out →
        out.label = (if fake then labels.map (fun l => l * 2 + 1)
                     else labels.map (fun l => l * 2))) := by
  intro R inst normF mtd normED P hIn labels fake
  constructor
  · simp [discHeads, adcRewrite, tacBranch]
  · intro out h
    simp only [discHeads, adcRewrite, tacBranch, if_neg (by decide : ¬("ADC" = "TAC")),
      reduceIte] at h
    cases hcb : condBranch normF mtd normED P hIn
        (if fake then labels.map (fun l => l * 2 + 1) else labels.map (fun l => l * 2))
        (squeezeVal (hIn.map (fun v => linearB P.linear1W P.linear1b v))) with
    | error e => rw [hcb] at h; cases h
    | ok c =>
      rw [hcb] at h
      simp only [Except.ok.injEq] at h
      subst h
      rfl

/-- C4 witness: concrete recoding of the batch `[1, 2]` with `adc_fake = true`
into `[3, 5]`. -/
theorem c4_witness :
    (discHeads (R := Int) id "W/O" "ADC" false ⟨[], [], [], [], [], [], [], []⟩
        [[1]] [1, 2] true
      = discHeads (R := Int) id "W/O" "None" false ⟨[], [], [], [], [], [], [], []⟩
          [[1]] (if true then [1, 2].map (fun l => l * 2 + 1)
                 else [1, 2].map (fun l => l * 2)) true)
    ∧ ({ h := [[1]], adv_output := .rank1 [], embed := none, proxy := none,
         cls_output := none, label := [3, 5], mi_embed := none, mi_proxy := none,
         mi_cls_output := none } : DiscOut Int).label
        = (if true then [1, 2].map (fun l => l * 2 + 1)
           else [1, 2].map (fun l => l * 2)) :=
  ⟨(c4_adc_label_recode (R := Int) id "W/O" false ⟨[], [], [], [], [], [], [], []⟩
      [[1]] [1, 2] true).1,
   (c4_adc_label_recode (R := Int) id "W/O" false ⟨[], [], [], [], [], [], [], []⟩
      [[1]] [1, 2] true).2
     { h := [[1]], adv_output := .rank1 [], embed := none, proxy := none,
       cls_output := none, label := [3, 5], mi_embed := none, mi_proxy := none,
       mi_cls_output := none } rfl⟩

/-- C7.  With `apply_attn = True` and `attn_g_loc = {2}` over the fixed
three-stage schedule, the constructed stage sequence holds exactly one
self-attention module, placed immediately after the block built in the loop
iteration whose insertion check `index + 1` equals 2 (the configuration's
stage 2), and nowhere else. -/
theorem c7_attn_insertion :
    genMakeStages true [2]
      = [GArch.genBlock 512 256, GArch.genBlock 256 128, GArch.selfAttn 128,
         GArch.genBlock 128 64]
    ∧ (genMakeStages true [2]).countP
        (fun s => match s with | GArch.selfAttn _ => true | _ => false) = 1 := by
  decide

/-- C9.  The generator forward is a pure function of the weights (the stage
primitives) and the inputs: it has no internal randomness in this model, and the
`eval` flag only selects the autocast scope, which does not change values. -/
theorem c9_generator_determinism : ∀ {R : Type} (tanhF : R → R)
    (linear0 : List R → List R) (stages : List (GStage R)) (conv4 : List R → List R)
    (z : List R) (label : List Nat) (mp e1 e2 : Bool),
    genForward tanhF linear0 stages conv4 z label mp e1
      = genForward tanhF linear0 stages conv4 z label mp e2 := by
  intro R tanhF linear0 stages conv4 z label mp e1 e2
  simp only [genForward]
  split <;> split <;> rfl

/-- Hyperbolic tangent stays strictly above -1. -/
lemma neg_one_lt_tanh_val (x : Real) : -1 < Real.tanh x := by
  rw [Real.tanh_eq_sinh_div_cosh, lt_div_iff₀ (Real.cosh_pos x)]
  have h1 := Real.cosh_add_sinh x
  have h2 := Real.exp_pos x
  linarith

/-- Hyperbolic tangent stays strictly below 1. -/
lemma tanh_lt_one_val (x : Real) : Real.tanh x < 1 := by
  rw [Real.tanh_eq_sinh_div_cosh, div_lt_one (Real.cosh_pos x)]
  exact Real.sinh_lt_cosh x

/-- C6.  For the resolution the fixed three-stage schedule realizes
(`img_size = 32`: a 4x4 seed doubled three times, then a stride-1 final
convolution), the generator produces a (B, 3, img_size, img_size) image, and
because the last operation is an elementwise `tanh`, every output value lies in
the closed interval [-1, 1] whatever the externally supplied stage primitives
compute. -/
theorem c6_generator_shape_range : ∀ (B img_size : Nat), img_size = 32 →
    ∀ (linear0 : List Real → List Real) (stages : List (GStage Real))
      (conv4 : List Real → List Real) (z : List Real) (label : List Nat)
      (mp e : Bool),
      genShape B = [B, 3, img_size, img_size]
      ∧ ∀ x ∈ genForward Real.tanh linear0 stages conv4 z label mp e,
          -1 ≤ x ∧ x ≤ 1 := by
  intro B img_size him linear0 stages conv4 z label mp e
  subst him
  constructor
  · rfl
  · intro x hx
    simp only [genForward, ite_self] at hx
    obtain ⟨y, _, hy⟩ := List.mem_map.1 hx
    subst hy
    exact ⟨le_of_lt (neg_one_lt_tanh_val y), le_of_lt (tanh_lt_one_val y)⟩

/-- C6 witness: the concrete native resolution and a concrete (trivial)
primitive bundle. -/
theorem c6_witness :
    (32 : Nat) = 32
    ∧ (genShape 1 = [1, 3, 32, 32]
       ∧ ∀ x ∈ genForward Real.tanh (fun v => v) [] (fun v => v) [] [] false false,
           -1 ≤ x ∧ x ≤ 1) :=
  ⟨rfl, c6_generator_shape_range 1 32 rfl (fun v => v) [] (fun v => v) [] [] false false⟩

/-- Norm of the concrete pooled vector used in the C2 evaluation. -/
lemma l2norm_two_zero : l2norm [(2 : Real), 0] = 2 := by
  simp only [l2norm, List.map_cons, List.map_nil, List.sum_cons, List.sum_nil]
  rw [show (2 : Real) * 2 + (0 * 0 + 0) = 2 ^ 2 by norm_num,
    Real.sqrt_sq (by norm_num : (0 : Real) ≤ 2)]

/-- Norm of the concrete weight row used in the C2 evaluation. -/
lemma l2norm_three_four : l2norm [(3 : Real), 4] = 5 := by
  simp only [l2norm, List.map_cons, List.map_nil, List.sum_cons, List.sum_nil]
  rw [show (3 : Real) * 3 + (4 * 4 + 0) = 5 ^ 2 by norm_num,
    Real.sqrt_sq (by norm_num : (0 : Real) ≤ 5)]

/-- Normalization of the concrete pooled vector. -/
lemma l2normalize_two_zero : l2normalize [(2 : Real), 0] = [1, 0] := by
  simp [l2normalize, l2norm_two_zero]

/-- Normalization of the concrete weight row. -/
lemma l2normalize_three_four : l2normalize [(3 : Real), 4] = [3 / 5, 4 / 5] := by
  simp [l2normalize, l2norm_three_four]

/-- Assembly of a successful forward from its two successful branches. -/
lemma discHeads_assemble {R : Type} [CommRing R] (normF : List R → List R)
    (mtd aux : String) (normED : Bool) (P : DiscParams R) (hIn : List (List R))
    (labels : List Nat) (fake : Bool) (c : CondRes R) (t : TacRes R)
    (hcond : condBranch normF mtd normED P hIn (adcRewrite aux fake labels)
        (squeezeVal (hIn.map (fun v => linearB P.linear1W P.linear1b v))) = .ok c)
    (htac : tacBranch normF mtd aux normED P c.hCur (adcRewrite aux fake labels)
        = .ok t) :
    discHeads normF mtd aux normED P hIn labels fake
      = .ok { h := c.hCur, adv_output := c.adv, embed := c.embed, proxy := c.proxy,
              cls_output := c.cls_output, label := adcRewrite aux fake labels,
              mi_embed := t.mi_embed, mi_proxy := t.mi_proxy,
              mi_cls_output := t.mi_cls_output } := by
  simp only [discHeads]
  rw [hcond]
  dsimp only
  rw [htac]

/-- C2.  With `d_cond_mtd = AC` and `normalize_d_embed = True`, the source's
weight-normalization loop (`for W in self.linear2.parameters():
W = F.normalize(W, dim=1)`, lines 212-213) rebinds the loop variable only, so
the class logits are computed from the RAW weight rows and the normalized `h`:
with weight row `[3, 4]` (norm 5) and pooled `h = [2, 0]`, the code yields
`cls_output = [[3]]`, whereas the claimed computation — both the weight rows and
`h` unit-normalized before the product, `acClsSpec` — yields `[3/5]`. -/
theorem c2_raw_weight_rows :
    (discHeads l2normalize "AC" "None" true
        ⟨[], [], [[3, 4]], [], [], [], [], []⟩ [[2, 0]] [] false).map
      (fun o => (o.cls_output, o.h))
      = .ok (some [[(3 : Real)]], [[1, 0]])
    ∧ acClsSpec [[3, 4]] [2, 0] = [(3 : Real) / 5]
    ∧ (3 : Real) ≠ 3 / 5 := by
  have hlin : linApply [[(3 : Real), 4]] [1, 0] = some [3] := by
    simp [linApply, matVec, dot]
  have hcond : condBranch l2normalize "AC" true
      (⟨[], [], [[3, 4]], [], [], [], [], []⟩ : DiscParams Real) [[2, 0]]
      (adcRewrite "None" false [])
      (squeezeVal (([[(2 : Real), 0]]).map
        (fun v => linearB ([] : List (List Real)) ([] : List Real) v)))
      = .ok ⟨[[1, 0]],
             squeezeVal (([[(2 : Real), 0]]).map
               (fun v => linearB ([] : List (List Real)) ([] : List Real) v)),
             none, none, some [[3]]⟩ := by
    unfold condBranch
    rw [if_pos rfl]
    dsimp only
    rw [show ([[(2 : Real), 0]].map l2normalize) = [[1, 0]] from by
      simp [l2normalize_two_zero]]
    rw [if_pos (rfl : (true : Bool) = true)]
    have hm : ([[(1 : Real), 0]] : List (List Real)).mapM
        (fun v => linApply [[3, 4]] v) = some [[3]] := by
      rw [show ([[(1 : Real), 0]] : List (List Real)).mapM
            (fun v => linApply [[3, 4]] v)
          = some [matVec [[3, 4]] [1, 0]] from rfl]
      rw [show matVec [[(3 : Real), 4]] [1, 0] = [3] from by
        simp [matVec, dot]]
    rw [hm]
  refine ⟨?_, ?_, by norm_num⟩
  · rw [discHeads_assemble l2normalize "AC" "None" true
      ⟨[], [], [[3, 4]], [], [], [], [], []⟩ [[2, 0]] [] false _
      ⟨none, none, none⟩ hcond rfl]
    rfl
  · simp [acClsSpec, matVec, dot, l2normalize_two_zero, l2normalize_three_four]



/-- On success, the conditioning branch leaves the local `h` unchanged except in
the `AC` branch with normalization on, where it is the normalized batch. -/
lemma condBranch_hCur {R : Type} [CommRing R] (normF : List R → List R)
    (mtd : String) (normED : Bool) (P : DiscParams R) (hIn : List (List R))
    (label1 : List Nat) (adv0 : TVal R) (c : CondRes R)
    (h : condBranch normF mtd normED P hIn label1 adv0 = .ok c) :
    c.hCur = (if mtd = "AC" ∧ normED = true then hIn.map normF else hIn) := by
  unfold condBranch at h
  by_cases h1 : mtd = "AC"
  · rw [if_pos h1] at h
    simp only [] at h
    split at h
    · cases h
    · simp only [Except.ok.injEq] at h
      subst h
      simp only [h1, true_and]
  · rw [if_neg h1] at h
    rw [if_neg (fun hc => h1 hc.1)]
    by_cases h2 : mtd = "PD"
    · rw [if_pos h2] at h
      split at h
      · cases h
      · split at h
        · cases h
        · simp only [Except.ok.injEq] at h
          subst h
          rfl
    · rw [if_neg h2] at h
      by_cases h3 : mtd = "2C" ∨ mtd = "D2DCE"
      · rw [if_pos h3] at h
        split at h
        · cases h
        · split at h
          · cases h
          · simp only [Except.ok.injEq] at h
            subst h
            rfl
      · rw [if_neg h3] at h
        by_cases h4 : mtd = "MD"
        · rw [if_pos h4] at h
          split at h
          · cases h
          · simp only [Except.ok.injEq] at h
            subst h
            rfl
        · rw [if_neg h4] at h
          by_cases h5 : mtd = "W/O" ∨ mtd = "MH"
          · rw [if_pos h5] at h
            simp only [Except.ok.injEq] at h
            subst h
            rfl
          · rw [if_neg h5] at h
            cases h

/-- Destructuring of a successful forward: both branches succeeded and the
bundle is assembled from their fields together with the recoded label. -/
lemma discHeads_ok_destruct {R : Type} [CommRing R] (normF : List R → List R)
    (mtd aux : String) (normED : Bool) (P : DiscParams R) (hIn : List (List R))
    (labels : List Nat) (fake : Bool) (out : DiscOut R)
    (h : discHeads normF mtd aux normED P hIn labels fake = .ok out) :
    ∃ c t,
      condBranch normF mtd normED P hIn (adcRewrite aux fake labels)
          (squeezeVal (hIn.map (fun v => linearB P.linear1W P.linear1b v))) = .ok c
      ∧ tacBranch normF mtd aux normED P c.hCur (adcRewrite aux fake labels) = .ok t
      ∧ out = { h := c.hCur, adv_output := c.adv, embed := c.embed, proxy := c.proxy,
                cls_output := c.cls_output, label := adcRewrite aux fake labels,
                mi_embed := t.mi_embed, mi_proxy := t.mi_proxy,
                mi_cls_output := t.mi_cls_output } := by
  simp only [discHeads] at h
  split at h
  · cases h
  · split at h
    · cases h
    · simp only [Except.ok.injEq] at h
      subst h
      refine ⟨_, _, ?_, ?_, rfl⟩ <;> assumption

/-- A successful checked batch application of a bias-free linear layer computes
exactly the unchecked products. -/
lemma mapM_linApply_some {R : Type} [CommRing R] (W : List (List R)) :
    ∀ l ys : List (List R), l.mapM (fun v => linApply W v) = some ys →
      ys = l.map (fun v => matVec W v) := by
  intro l
  induction l with
  | nil =>
    intro ys h
    exact (Option.some.inj (h : some ([] : List (List R)) = some ys)).symm
  | cons a t ih =>
    intro ys h
    rw [List.mapM_cons] at h
    simp only [Option.pure_def, Option.bind_eq_bind, Option.bind_eq_some] at h
    obtain ⟨y, hy0, xs, hxs, hys⟩ := h
    have hys' := Option.some.inj hys
    subst hys'
    have hy : y = matVec W a := by
      unfold linApply at hy0
      by_cases hc : W.all (fun row => row.length == a.length)
      · rw [if_pos hc] at hy0
        exact (Option.some.inj hy0).symm
      · rw [if_neg hc] at hy0
        cases hy0
    rw [List.map_cons, hy, ih xs hxs]

/-- C10.  With `d_cond_mtd = AC` and `normalize_d_embed = True`, the `h` field of
the returned bundle is the L2-normalized pooled batch (line 214 reassigns the
local `h`), and the same normalized batch is the input of the TAC twin head
(line 238); in every other conditioning situation the returned `h` is the raw
pooled batch. -/
theorem c10_h_field : ∀ (mtd aux : String) (normED : Bool) (P : DiscParams Real)
    (hIn : List (List Real)) (labels : List Nat) (fake : Bool) (out : DiscOut Real),
    discHeads l2normalize mtd aux normED P hIn labels fake = .ok out →
    out.h = (if mtd = "AC" ∧ normED = true then hIn.map l2normalize else hIn)
    ∧ (mtd = "AC" → normED = true → aux = "TAC" →
        out.mi_cls_output
          = some ((hIn.map l2normalize).map (fun v => matVec P.linearMiW v))) := by
  intro mtd aux normED P hIn labels fake out h
  obtain ⟨c, t, hcb, htb, hout⟩ := discHeads_ok_destruct l2normalize mtd aux normED
    P hIn labels fake out h
  subst hout
  have hc := condBranch_hCur l2normalize mtd normED P hIn (adcRewrite aux fake labels)
    (squeezeVal (hIn.map (fun v => linearB P.linear1W P.linear1b v))) c hcb
  refine ⟨hc, ?_⟩
  intro h1 h2 h3
  subst h1; subst h3; subst h2
  rw [if_pos ⟨rfl, rfl⟩] at hc
  rw [hc] at htb
  unfold tacBranch at htb
  rw [if_pos rfl, if_pos rfl] at htb
  cases hm : (hIn.map l2normalize).mapM (fun v => linApply P.linearMiW v) with
  | none => rw [hm] at htb; cases htb
  | some miCls =>
    rw [hm] at htb
    simp only [Except.ok.injEq] at htb
    subst htb
    have hv := mapM_linApply_some P.linearMiW (hIn.map l2normalize) miCls hm
    simp [hv]

/-- C10 witness: a concrete `AC` + `TAC` configuration with empty head weights,
so the bundle can be written down explicitly while `h` is nonempty. -/
theorem c10_witness :
    discHeads l2normalize "AC" "TAC" true
        ⟨[], [], [], [], [], [], [], []⟩ [[3, 4]] [] false
      = .ok { h := [l2normalize [3, 4]], adv_output := .rank1 [], embed := none,
              proxy := none, cls_output := some [[]], label := [], mi_embed := none,
              mi_proxy := none, mi_cls_output := some [[]] }
    ∧ (({ h := [l2normalize [3, 4]], adv_output := .rank1 [], embed := none,
          proxy := none, cls_output := some [[]], label := [], mi_embed := none,
          mi_proxy := none, mi_cls_output := some [[]] } : DiscOut Real).h
        = (if "AC" = "AC" ∧ true = true then [[(3 : Real), 4]].map l2normalize
           else [[3, 4]])
      ∧ ("AC" = "AC" → true = true → "TAC" = "TAC" →
          ({ h := [l2normalize [3, 4]], adv_output := .rank1 [], embed := none,
             proxy := none, cls_output := some [[]], label := [], mi_embed := none,
             mi_proxy := none, mi_cls_output := some [[]] } : DiscOut Real).mi_cls_output
            = some (([[(3 : Real), 4]].map l2normalize).map
                (fun v => matVec (⟨[], [], [], [], [], [], [], []⟩ :
                    DiscParams Real).linearMiW v)))) :=
  ⟨rfl, c10_h_field "AC" "TAC" true ⟨[], [], [], [], [], [], [], []⟩ [[3, 4]] [] false
    { h := [l2normalize [3, 4]], adv_output := .rank1 [], embed := none,
      proxy := none, cls_output := some [[]], label := [], mi_embed := none,
      mi_proxy := none, mi_cls_output := some [[]] } rfl⟩

/-- C8.  Under `d_cond_mtd = MD` (batch of at least two samples, adversarial head
with at least two output columns, in-range labels), the forward succeeds and the
adversarial output at sample `i` is entry `(i, label i)` of the pre-gather
(B, num_classes) tensor produced by the adversarial head `linear1`. -/
theorem c8_md_gather : ∀ {R : Type} [inst : CommRing R] (normF : List R → List R)
    (aux : String) (normED : Bool) (P : DiscParams R) (hIn : List (List R))
    (labels : List Nat) (fake : Bool),
    2 ≤ hIn.length → labels.length = hIn.length →
    2 ≤ P.linear1W.length → P.linear1b.length = P.linear1W.length →
    (∀ l ∈ adcRewrite aux fake labels, l < P.linear1W.length) →
    discHeads normF "MD" aux normED P hIn labels fake
      = .ok { h := hIn,
              adv_output := .rank1 ((List.range labels.length).map (fun i =>
                (linearB P.linear1W P.linear1b (hIn.getD i [])).getD
                  ((adcRewrite aux fake labels).getD i 0) 0)),
              embed := none, proxy := none, cls_output := none,
              label := adcRewrite aux fake labels,
              mi_embed := none, mi_proxy := none, mi_cls_output := none } := by
  intro R inst normF aux normED P hIn labels fake hB hlab hW hb hbound
  have hl1len : (adcRewrite aux fake labels).length = labels.length :=
    adcRewrite_length aux fake labels
  have hrowlen : ∀ v, (linearB P.linear1W P.linear1b v).length = P.linear1W.length := by
    intro v
    rw [linearB_length, hb, Nat.min_self]
  have hsq : squeezeVal (hIn.map (fun v => linearB P.linear1W P.linear1b v))
      = .rank2 (hIn.map (fun v => linearB P.linear1W P.linear1b v)) := by
    obtain ⟨a, b', tl, hsplit⟩ : ∃ a b' tl, hIn = a :: b' :: tl := by
      cases hIn with
      | nil => simp at hB
      | cons a rest =>
        cases rest with
        | nil => simp at hB
        | cons b' tl => exact ⟨a, b', tl, rfl⟩
    rw [hsplit]
    simp only [List.map_cons]
    apply squeezeVal_wide_rows
    rw [hrowlen]
    omega
  have hlen1 : (adcRewrite aux fake labels).length
      ≤ (hIn.map (fun v => linearB P.linear1W P.linear1b v)).length := by
    rw [hl1len, hlab, List.length_map]
  have hbnd1 : ∀ i, i < (adcRewrite aux fake labels).length →
      (adcRewrite aux fake labels).getD i 0
        < ((hIn.map (fun v => linearB P.linear1W P.linear1b v)).getD i []).length := by
    intro i hi
    have hiL : i < hIn.length := by
      rw [hl1len, hlab] at hi
      exact hi
    rw [getD_map (fun v => linearB P.linear1W P.linear1b v) hIn i [] [] hiL, hrowlen]
    exact hbound _ (List.get?_mem (get?_eq_some_getD (adcRewrite aux fake labels) i 0 hi))
  have hgather := mdGather_ok (hIn.map (fun v => linearB P.linear1W P.linear1b v))
    (adcRewrite aux fake labels) hlen1 hbnd1
  have hmap : (List.range (adcRewrite aux fake labels).length).map (fun i =>
        ((hIn.map (fun v => linearB P.linear1W P.linear1b v)).getD i []).getD
          ((adcRewrite aux fake labels).getD i 0) 0)
      = (List.range labels.length).map (fun i =>
        (linearB P.linear1W P.linear1b (hIn.getD i [])).getD
          ((adcRewrite aux fake labels).getD i 0) 0) := by
    rw [hl1len]
    apply List.map_congr_left
    intro i hi
    rw [List.mem_range] at hi
    rw [getD_map (fun v => linearB P.linear1W P.linear1b v) hIn i [] []
      (by rw [← hlab]; exact hi)]
  have hcond : condBranch normF "MD" normED P hIn (adcRewrite aux fake labels)
      (squeezeVal (hIn.map (fun v => linearB P.linear1W P.linear1b v)))
      = .ok ⟨hIn, .rank1 ((List.range labels.length).map (fun i =>
          (linearB P.linear1W P.linear1b (hIn.getD i [])).getD
            ((adcRewrite aux fake labels).getD i 0) 0)), none, none, none⟩ := by
    unfold condBranch
    rw [if_neg (by decide), if_neg (by decide), if_neg (by decide), if_pos rfl]
    rw [hsq, hgather, hmap]
  have htac : tacBranch normF "MD" aux normED P hIn (adcRewrite aux fake labels)
      = .ok ⟨none, none, none⟩ := by
    unfold tacBranch
    by_cases hT : aux = "TAC"
    · rw [if_pos hT, if_neg (by decide), if_neg (by decide)]
    · rw [if_neg hT]
  simp only [discHeads]
  rw [hcond]
  dsimp only
  rw [htac]

/-- C8 witness: a two-sample batch, a two-column deterministic head, labels
`[0, 1]`; the gathered scores are the diagonal entries of the pre-gather tensor. -/
theorem c8_witness :
    ([0, 1] : List Nat).length = ([[(1 : Int)], [1]] : List (List Int)).length
    ∧ (∀ l ∈ adcRewrite "None" false [0, 1],
        l < ([[(1 : Int)], [2]] : List (List Int)).length)
    ∧ discHeads (R := Int) id "MD" "None" false
        ⟨[[1], [2]], [0, 0], [], [], [], [], [], []⟩ [[1], [1]] [0, 1] false
      = .ok { h := [[1], [1]],
              adv_output := .rank1 ((List.range ([0, 1] : List Nat).length).map (fun i =>
                (linearB ([[1], [2]] : List (List Int)) [0, 0]
                    (([[1], [1]] : List (List Int)).getD i [])).getD
                  ((adcRewrite "None" false [0, 1]).getD i 0) 0)),
              embed := none, proxy := none, cls_output := none,
              label := adcRewrite "None" false [0, 1],
              mi_embed := none, mi_proxy := none, mi_cls_output := none } :=
  ⟨by decide, by decide,
   c8_md_gather (R := Int) id "None" false ⟨[[1], [2]], [0, 0], [], [], [], [], [], []⟩
     [[1], [1]] [0, 1] false (by decide) (by decide) (by decide) (by decide) (by decide)⟩

/-- Squeeze of an adversarial head with a single output feature over a batch of
at least two samples: a vector with one score per sample. -/
lemma squeezeVal_map_one {R : Type} [CommRing R] (W : List (List R)) (bv : List R)
    (hIn : List (List R)) (hB : 2 ≤ hIn.length) (hone : W.length = 1)
    (hb : bv.length = W.length) :
    squeezeVal (hIn.map (fun x => linearB W bv x))
      = .rank1 ((hIn.map (fun x => linearB W bv x)).filterMap List.head?)
    ∧ ((hIn.map (fun x => linearB W bv x)).filterMap List.head?).length = hIn.length := by
  have hrone : ∀ x : List R, (linearB W bv x).length = 1 := by
    intro x
    rw [linearB_length, hb, Nat.min_self, hone]
  obtain ⟨a, b', tl, hsplit⟩ : ∃ a b' tl, hIn = a :: b' :: tl := by
    cases hIn with
    | nil => simp at hB
    | cons a rest =>
      cases rest with
      | nil => simp at hB
      | cons b' tl => exact ⟨a, b', tl, rfl⟩
  constructor
  · rw [hsplit]
    simp only [List.map_cons]
    exact squeezeVal_singleton_rows _ _ _ (hrone a)
  · rw [filterMap_head_length]
    · simp
    · intro r hr
      obtain ⟨x, _, hx⟩ := List.mem_map.1 hr
      rw [← hx]
      exact hrone x

/-- Squeeze of an adversarial head with at least two output features over a
batch of at least two samples: the matrix is untouched and its shape is
(batch, out-features). -/
lemma squeezeVal_map_wide {R : Type} [CommRing R] (W : List (List R)) (bv : List R)
    (hIn : List (List R)) (hB : 2 ≤ hIn.length) (hwide : 2 ≤ W.length)
    (hb : bv.length = W.length) :
    squeezeVal (hIn.map (fun x => linearB W bv x))
      = .rank2 (hIn.map (fun x => linearB W bv x))
    ∧ TVal.shape (TVal.rank2 (hIn.map (fun x => linearB W bv x)))
        = [hIn.length, W.length] := by
  have hrlen : ∀ x : List R, (linearB W bv x).length = W.length := by
    intro x
    rw [linearB_length, hb, Nat.min_self]
  obtain ⟨a, b', tl, hsplit⟩ : ∃ a b' tl, hIn = a :: b' :: tl := by
    cases hIn with
    | nil => simp at hB
    | cons a rest =>
      cases rest with
      | nil => simp at hB
      | cons b' tl => exact ⟨a, b', tl, rfl⟩
  subst hsplit
  constructor
  · simp only [List.map_cons]
    apply squeezeVal_wide_rows
    rw [hrlen]
    omega
  · simp [TVal.shape, hrlen]

/-- The TAC branch populates nothing and always succeeds for conditioning modes
outside the `AC` / `2C` / `D2DCE` family: under `TAC` it falls through the final
else, and for any other auxiliary type the block is skipped entirely. -/
lemma tacBranch_other {R : Type} [CommRing R] (normF : List R → List R)
    (mtd aux : String) (normED : Bool) (P : DiscParams R) (hCur : List (List R))
    (label1 : List Nat) (hA : mtd ≠ "AC") (h2 : ¬(mtd = "2C" ∨ mtd = "D2DCE")) :
    tacBranch normF mtd aux normED P hCur label1 = .ok ⟨none, none, none⟩ := by
  unfold tacBranch
  by_cases hT : aux = "TAC"
  · rw [if_pos hT, if_neg hA, if_neg h2]
  · rw [if_neg hT]

set_option maxRecDepth 8192 in
/-- C5.  The claim extends the shape contract to every batch size `B ≥ 1`; it is
false at `B = 1`: `torch.squeeze` (line 200) also removes the batch dimension,
so a single-sample batch under `W/O` yields a 0-dimensional adversarial output
(shape `[]`) instead of shape `(1,)`.  The pooled feature keeps its (1, 512)
shape. -/
theorem c5_counterexample :
    (discHeads (R := Int) id "W/O" "None" false
        ⟨[List.replicate 512 1], [0], [], [], [], [], [], []⟩
        [List.replicate 512 0] [0] false).map
      (fun o => (o.h.length, (o.h.map List.length), TVal.shape o.adv_output))
      = .ok (1, [512], [])
    ∧ (([] : List Nat) ≠ [1]) :=
  ⟨rfl, by decide⟩

/-- Shape of a rank-1 value. -/
lemma tshape_rank1 {R : Type} (v : List R) : TVal.shape (.rank1 v) = [v.length] := rfl

/-- Broadcast addition onto a rank-1 value. -/
lemma addVec_rank1 {R : Type} [CommRing R] (v s : List R) :
    addVec (.rank1 v) s = .rank1 (List.zipWith (fun a c => a + c) v s) := rfl

/-- Decomposition of a list with at least two elements. -/
lemma exists_cons_of_two_le {α : Type} (l : List α) (h : 2 ≤ l.length) :
    ∃ a b t, l = a :: b :: t := by
  cases l with
  | nil => simp at h
  | cons a r =>
    cases r with
    | nil => simp at h
    | cons b t => exact ⟨a, b, t, rfl⟩

/-- The in-features check of a conditioning head fails on the pooled width: the
head rows are 256 wide (`out_dims[-1]`, lines 163-177) while `h` is 512 wide. -/
lemma allWidth_false {R : Type} (W : List (List R)) (v : List R) (hne : W ≠ [])
    (hwrow : ∀ row ∈ W, row.length = 256) (hv : v.length = 512) :
    W.all (fun row => row.length == v.length) = false := by
  cases hall : W.all (fun row => row.length == v.length) with
  | false => rfl
  | true =>
    exfalso
    obtain ⟨w0, hw0⟩ := List.exists_mem_of_ne_nil W hne
    have h1 : w0.length = v.length := by
      simpa using List.all_eq_true.mp hall w0 hw0
    rw [hwrow w0 hw0, hv] at h1
    exact absurd h1 (by decide)

/-- Checked bias-free application on a width mismatch. -/
lemma linApply_none {R : Type} [CommRing R] (W : List (List R)) (v : List R)
    (hne : W ≠ []) (hwrow : ∀ row ∈ W, row.length = 256) (hv : v.length = 512) :
    linApply W v = none := by
  unfold linApply
  rw [allWidth_false W v hne hwrow hv]
  rfl

/-- Checked biased application on a width mismatch. -/
lemma linApplyB_none {R : Type} [CommRing R] (W : List (List R)) (b v : List R)
    (hne : W ≠ []) (hwrow : ∀ row ∈ W, row.length = 256) (hv : v.length = 512) :
    linApplyB W b v = none := by
  unfold linApplyB
  rw [allWidth_false W v hne hwrow hv]
  rfl

/-- A batch application fails as soon as its first sample fails. -/
lemma mapM_cons_none {α β : Type} (f : α → Option β) (a : α) (t : List α)
    (h : f a = none) : (a :: t).mapM f = none := by
  rw [List.mapM_cons, h]
  rfl

/-- The `PD` product-and-sum fails as soon as the first sample's widths differ. -/
lemma mulSumPD_cons_none {R : Type} [CommRing R] (p a : List R) (ps ts : List (List R))
    (h : ¬p.length = a.length) :
    mulSumPD (p :: ps) (a :: ts) = none := by
  unfold mulSumPD
  rw [List.zipWith_cons_cons, if_neg h, List.mapM_cons]
  rfl

/-- An error in the conditioning branch is the forward's error. -/
lemma discHeads_error {R : Type} [CommRing R] (normF : List R → List R)
    (mtd aux : String) (normED : Bool) (P : DiscParams R) (hIn : List (List R))
    (labels : List Nat) (fake : Bool) (e : String)
    (h : condBranch normF mtd normED P hIn (adcRewrite aux fake labels)
      (squeezeVal (hIn.map (fun v => linearB P.linear1W P.linear1b v))) = .error e) :
    discHeads normF mtd aux normED P hIn labels fake = .error e := by
  simp only [discHeads]
  rw [h]

/-- C5 (amended).  The backbone always pools to shape (B, 512) for any input
resolution.  For a batch of at least TWO samples under `W/O`, `MH`, or `MD`
(at least one class, at least two classes under `MD`, `MD` not combined with
`ADC`), the forward succeeds, the returned `h` has shape (B, 512), and the
adversarial output has shape (B,) — (B, 1 + num_classes) pre-indexing under
`MH`; at `B = 1` the squeeze also removes the batch dimension (counterexample).
Under `AC`, `PD`, `2C`, and `D2DCE` the forward never returns a bundle at all:
the conditioning heads are constructed with `in_features = out_dims[-1] = 256`
(lines 163-167) against the 512-wide pooled `h`, so the head application raises
the engine's shape error. -/
theorem c5_amended : ∀ {R : Type} [inst : CommRing R] (normF : List R → List R)
    (mtd aux : String) (nc B s : Nat) (normED : Bool) (P : DiscParams R)
    (hIn : List (List R)) (labels : List Nat) (fake : Bool),
    (∀ v, (normF v).length = v.length) →
    2 ≤ B → 1 ≤ nc →
    hIn.length = B → (∀ r ∈ hIn, r.length = 512) →
    P.linear1W.length = (if mtd = "MH" then 1 + nc else if mtd = "MD" then nc else 1) →
    P.linear1b.length = P.linear1W.length →
    labels.length = B → (∀ l ∈ labels, l < nc) →
    (mtd = "MD" → 2 ≤ nc) →
    (aux = "ADC" → mtd ≠ "MD") →
    P.embeddingT.length = (if aux = "ADC" then nc * 2 else nc) →
    ((mtd = "AC" ∨ mtd = "2C" ∨ mtd = "D2DCE") →
      P.linear2W ≠ [] ∧ ∀ row ∈ P.linear2W, row.length = 256) →
    (mtd = "PD" → ∀ row ∈ P.embeddingT, row.length = 256) →
    discStackShape B s = [B, 512]
    ∧ ((mtd = "W/O" ∨ mtd = "MH" ∨ mtd = "MD") →
        ∃ out, discHeads normF mtd aux normED P hIn labels fake = .ok out
          ∧ out.h.length = B
          ∧ (∀ r ∈ out.h, r.length = 512)
          ∧ TVal.shape out.adv_output = (if mtd = "MH" then [B, 1 + nc] else [B]))
    ∧ ((mtd = "AC" ∨ mtd = "PD" ∨ mtd = "2C" ∨ mtd = "D2DCE") →
        discHeads normF mtd aux normED P hIn labels fake = .error "RuntimeError") := by
  intro R inst normF mtd aux nc B s normED P hIn labels fake
  intro hNlen hB hnc hhlen hrow hW1 hb1 hlab hlabBound hMDnc hADCMD hEmb hW2 hEmbRow
  have hBlen : 2 ≤ hIn.length := by rw [hhlen]; exact hB
  have hlab1len : (adcRewrite aux fake labels).length = B := by
    rw [adcRewrite_length, hlab]
  refine ⟨rfl, ?_, ?_⟩
  · intro hm3
    have hnAC : mtd ≠ "AC" := by rcases hm3 with h | h | h <;> rw [h] <;> decide
    have hnPD : mtd ≠ "PD" := by rcases hm3 with h | h | h <;> rw [h] <;> decide
    have hn2C : ¬(mtd = "2C" ∨ mtd = "D2DCE") := by
      rcases hm3 with h | h | h <;> rw [h] <;> decide
    have htac := tacBranch_other normF mtd aux normED P hIn
      (adcRewrite aux fake labels) hnAC hn2C
    by_cases hMD : mtd = "MD"
    · subst hMD
      have hncW : P.linear1W.length = nc := by simpa using hW1
      have hnc2 : 2 ≤ nc := hMDnc rfl
      have hauxnADC : aux ≠ "ADC" := fun hA => (hADCMD hA) rfl
      have hlabeq : adcRewrite aux fake labels = labels := by
        unfold adcRewrite
        rw [if_neg hauxnADC]
      obtain ⟨hsq, hshape⟩ := squeezeVal_map_wide P.linear1W P.linear1b hIn hBlen
        (by rw [hncW]; exact hnc2) hb1
      have hlen1 : (adcRewrite aux fake labels).length
          ≤ (hIn.map (fun v => linearB P.linear1W P.linear1b v)).length := by
        rw [hlab1len, List.length_map, hhlen]
      have hbnd1 : ∀ i, i < (adcRewrite aux fake labels).length →
          (adcRewrite aux fake labels).getD i 0
            < ((hIn.map (fun v => linearB P.linear1W P.linear1b v)).getD i []).length := by
        intro i hi
        have hiL : i < hIn.length := by
          rw [hlab1len] at hi
          rw [hhlen]
          exact hi
        rw [getD_map (fun v => linearB P.linear1W P.linear1b v) hIn i [] [] hiL,
          linearB_length, hb1, Nat.min_self, hncW, hlabeq]
        have hilab : i < labels.length := by
          rw [hlab]
          rw [hlab1len] at hi
          exact hi
        exact hlabBound _ (List.get?_mem (get?_eq_some_getD labels i 0 hilab))
      have hgather := mdGather_ok (hIn.map (fun v => linearB P.linear1W P.linear1b v))
        (adcRewrite aux fake labels) hlen1 hbnd1
      have hcond : condBranch normF "MD" normED P hIn (adcRewrite aux fake labels)
          (squeezeVal (hIn.map (fun v => linearB P.linear1W P.linear1b v)))
          = .ok ⟨hIn,
                 .rank1 ((List.range (adcRewrite aux fake labels).length).map (fun i =>
                   ((hIn.map (fun v => linearB P.linear1W P.linear1b v)).getD i []).getD
                     ((adcRewrite aux fake labels).getD i 0) 0)),
                 none, none, none⟩ := by
        unfold condBranch
        rw [if_neg (by decide), if_neg (by decide), if_neg (by decide), if_pos rfl,
          hsq, hgather]
      refine ⟨_, discHeads_assemble normF "MD" aux normED P hIn labels fake _ _
        hcond htac, hhlen, hrow, ?_⟩
      show TVal.shape (TVal.rank1 (R := R)
          ((List.range (adcRewrite aux fake labels).length).map (fun i =>
            ((hIn.map (fun v => linearB P.linear1W P.linear1b v)).getD i []).getD
              ((adcRewrite aux fake labels).getD i 0) 0)))
        = (if "MD" = "MH" then [B, 1 + nc] else [B])
      simp [TVal.shape, hlab1len]
    · have hWM : mtd = "W/O" ∨ mtd = "MH" := by
        rcases hm3 with h | h | h
        · exact Or.inl h
        · exact Or.inr h
        · exact absurd h hMD
      have hcond : condBranch normF mtd normED P hIn (adcRewrite aux fake labels)
          (squeezeVal (hIn.map (fun v => linearB P.linear1W P.linear1b v)))
          = .ok ⟨hIn,
                 squeezeVal (hIn.map (fun v => linearB P.linear1W P.linear1b v)),
                 none, none, none⟩ := by
        unfold condBranch
        rw [if_neg hnAC, if_neg hnPD, if_neg hn2C, if_neg hMD, if_pos hWM]
      refine ⟨_, discHeads_assemble normF mtd aux normED P hIn labels fake _ _
        hcond htac, hhlen, hrow, ?_⟩
      show TVal.shape (squeezeVal (hIn.map (fun v => linearB P.linear1W P.linear1b v)))
        = (if mtd = "MH" then [B, 1 + nc] else [B])
      by_cases hMH : mtd = "MH"
      · have hwide : P.linear1W.length = 1 + nc := by rw [hW1, if_pos hMH]
        obtain ⟨hsq, hshape⟩ := squeezeVal_map_wide P.linear1W P.linear1b hIn hBlen
          (by rw [hwide]; omega) hb1
        rw [hsq, hshape, hhlen, hwide, if_pos hMH]
      · have hWO : mtd = "W/O" := by
          rcases hWM with h | h
          · exact h
          · exact absurd h hMH
        have hone : P.linear1W.length = 1 := by
          rw [hW1, if_neg hMH, if_neg (by rw [hWO]; decide)]
        obtain ⟨hsq, hsqlen⟩ := squeezeVal_map_one P.linear1W P.linear1b hIn hBlen
          hone hb1
        rw [hsq, tshape_rank1, hsqlen, hhlen, if_neg hMH]
  · intro hm4
    obtain ⟨a, b', tl, hsplit⟩ := exists_cons_of_two_le hIn hBlen
    have ha512 : a.length = 512 := hrow a (by rw [hsplit]; exact List.mem_cons_self a _)
    rcases hm4 with hA | hP | h2 | h2
    · subst hA
      obtain ⟨hne2, hrow2⟩ := hW2 (Or.inl rfl)
      apply discHeads_error
      unfold condBranch
      rw [if_pos rfl]
      dsimp only
      cases normED with
      | false =>
        rw [if_neg (by decide : ¬((false : Bool) = true)), hsplit,
          mapM_cons_none _ _ _ (linApply_none P.linear2W a hne2 hrow2 ha512)]
      | true =>
        rw [if_pos (rfl : (true : Bool) = true), hsplit, List.map_cons,
          mapM_cons_none _ _ _ (linApply_none P.linear2W (normF a) hne2 hrow2
            (by rw [hNlen, ha512]))]
    · subst hP
      have hlab1bound : ∀ l ∈ adcRewrite aux fake labels, l < P.embeddingT.length := by
        rw [hEmb]
        unfold adcRewrite
        by_cases hADC : aux = "ADC"
        · rw [if_pos hADC, if_pos hADC]
          cases fake <;> intro l hl <;>
            simp only [Bool.false_eq_true, if_false, if_true] at hl <;>
            obtain ⟨x, hx, hlx⟩ := List.mem_map.1 hl <;>
            have := hlabBound x hx <;> omega
        · rw [if_neg hADC, if_neg hADC]
          exact hlabBound
      apply discHeads_error
      unfold condBranch
      rw [if_neg (by decide), if_pos rfl, embLookup_ok _ _ hlab1bound]
      obtain ⟨r0, rt, hr⟩ : ∃ r0 rt, adcRewrite aux fake labels = r0 :: rt := by
        have h2le : 2 ≤ (adcRewrite aux fake labels).length := by
          rw [hlab1len]
          exact hB
        obtain ⟨x, y, t2, hx⟩ := exists_cons_of_two_le _ h2le
        exact ⟨x, y :: t2, hx⟩
      have hr0lt : r0 < P.embeddingT.length := by
        apply hlab1bound
        rw [hr]
        exact List.mem_cons_self _ _
      have hp0len : (P.embeddingT.getD r0 []).length = 256 :=
        hEmbRow rfl _ (List.get?_mem (get?_eq_some_getD _ _ _ hr0lt))
      rw [hr, hsplit, List.map_cons]
      dsimp only
      rw [mulSumPD_cons_none _ _ _ _ (by rw [hp0len, ha512]; decide)]
    · subst h2
      obtain ⟨hne2, hrow2⟩ := hW2 (Or.inr (Or.inl rfl))
      apply discHeads_error
      unfold condBranch
      rw [if_neg (by decide), if_neg (by decide), if_pos (Or.inl rfl), hsplit,
        mapM_cons_none _ _ _ (linApplyB_none P.linear2W P.linear2b a hne2 hrow2 ha512)]
    · subst h2
      obtain ⟨hne2, hrow2⟩ := hW2 (Or.inr (Or.inr rfl))
      apply discHeads_error
      unfold condBranch
      rw [if_neg (by decide), if_neg (by decide), if_pos (Or.inr rfl), hsplit,
        mapM_cons_none _ _ _ (linApplyB_none P.linear2W P.linear2b a hne2 hrow2 ha512)]

/-- C5 witness: a two-sample batch at the native 32x32 resolution.  Under `W/O`
with one class the pooled feature is (2, 512) and the adversarial output has
shape (2,); under `AC`, with the head sized as constructed (one 256-wide row),
the same batch makes the forward raise the engine's shape error. -/
theorem c5_amended_witness :
    (2 ≤ 2)
    ∧ (List.replicate 2 (List.replicate 512 (0 : Int))).length = 2
    ∧ (discStackShape 2 32 = [2, 512]
       ∧ (("W/O" = "W/O" ∨ "W/O" = "MH" ∨ "W/O" = "MD") →
           ∃ out, discHeads (R := Int) id "W/O" "None" false
                ⟨[List.replicate 512 1], [0], [], [], [[]], [], [], [[]]⟩
                (List.replicate 2 (List.replicate 512 0)) [0, 0] false = .ok out
              ∧ out.h.length = 2
              ∧ (∀ r ∈ out.h, r.length = 512)
              ∧ TVal.shape out.adv_output = (if "W/O" = "MH" then [2, 1 + 1] else [2]))
       ∧ (("W/O" = "AC" ∨ "W/O" = "PD" ∨ "W/O" = "2C" ∨ "W/O" = "D2DCE") →
           discHeads (R := Int) id "W/O" "None" false
               ⟨[List.replicate 512 1], [0], [], [], [[]], [], [], [[]]⟩
               (List.replicate 2 (List.replicate 512 0)) [0, 0] false
             = .error "RuntimeError"))
    ∧ discHeads (R := Int) id "AC" "None" false
        ⟨[List.replicate 512 1], [0], [List.replicate 256 0], [], [[]], [], [], [[]]⟩
        (List.replicate 2 (List.replicate 512 0)) [0, 0] false
      = .error "RuntimeError" :=
  ⟨by decide, by decide,
   c5_amended (R := Int) id "W/O" "None" 1 2 32 false
     ⟨[List.replicate 512 1], [0], [], [], [[]], [], [], [[]]⟩
     (List.replicate 2 (List.replicate 512 0)) [0, 0] false
     (fun v => rfl) (by decide) (by decide) (by decide)
     (fun r hr => by rw [List.eq_of_mem_replicate hr, List.length_replicate])
     (by decide) (by decide) (by decide) (by decide)
     (by decide) (by decide) (by decide) (by decide) (by decide),
   (c5_amended (R := Int) id "AC" "None" 1 2 32 false
     ⟨[List.replicate 512 1], [0], [List.replicate 256 0], [], [[]], [], [], [[]]⟩
     (List.replicate 2 (List.replicate 512 0)) [0, 0] false
     (fun v => rfl) (by decide) (by decide) (by decide)
     (fun r hr => by rw [List.eq_of_mem_replicate hr, List.length_replicate])
     (by decide) (by decide) (by decide) (by decide)
     (by decide) (by decide) (by decide)
     (fun h => ⟨by decide, fun r hr => by
        rw [List.mem_singleton.mp hr, List.length_replicate]⟩)
     (by decide)).2.2 (Or.inl rfl)⟩
